import Mathlib

/-!
Verification of the streaming JSON transformation engine (path-based
remove/set/add rules) against its natural-language specification.

The development shallowly embeds the Go sources of the engine:
  * `internal/jsonengine/simd_other.go` / `simd_amd64.go` — structural scanner
  * `internal/jsonengine/path.go`                         — path grammar
  * the Aho-Corasick style path matcher
  * `internal/jsonengine/path_processor.go`               — stream transformer
  * `internal/jsonengine/engine.go`                       — engine entry points
  * the legacy single-key processor and its token scanner

Bytes are modelled as `Nat` (the Go code works on `[]byte`); Go strings
holding keys, paths and error messages are modelled as `List Nat` of their
byte values.  All inputs used in the theorems are ASCII.
-/

set_option maxRecDepth 100000

/-- Byte values of a list of (ASCII) characters; used to write concrete
JSON inputs and keys. -/
def cb (l : List Char) : List Nat := l.map Char.toNat

/- ======================= 4.1 Structural scanner ======================= -/

/-- `isStructural` from `simd_other.go` (and identically `simd_amd64.go`):
the seven JSON structural bytes `"` (34), `{` (123), `}` (125), `[` (91),
`]` (93), `:` (58), `,` (44). -/
def isStructural (b : Nat) : Bool :=
  b = 34 || b = 123 || b = 125 || b = 91 || b = 93 || b = 58 || b = 44

/-- Loop of `scanGeneric` (`simd_other.go` lines 16-40): walk `data` at
index `i` with `room = maxCount - count` slots left; record the index of
every structural byte, stopping when the output capacity is exhausted.
(The `simd_amd64.go` variant keeps scanning without writing once the
capacity is reached; the recorded positions are the same.) -/
def scanAux : List Nat → Nat → Nat → List Nat
  | [], _, _ => []
  | b :: rest, i, room =>
    if isStructural b then
      if room = 0 then []
      else i :: scanAux rest (i + 1) (room - 1)
    else scanAux rest (i + 1) room

/-- `scanGeneric(data, positions)` from `simd_other.go`: the list of
positions written into `positions`; the Go return value is its length,
`maxCount` is `len(positions)`. -/
def scanGeneric (data : List Nat) (maxCount : Nat) : List Nat :=
  scanAux data 0 maxCount

/-- Modelled from the spec: "writes the ascending byte offsets of every
occurrence of `"`, `{`, `}`, `[`, `]`, `:`, or `,` into `out`" — the
offsets below `data.length` whose byte is structural, in order. -/
def structuralPositionsSpec (data : List Nat) : List Nat :=
  (List.range data.length).filter (fun j => isStructural (data.getD j 0))

/-- Index-tracking reformulation of the structural positions, used to
relate the scanner loop to the specification. -/
def structIdxFrom : List Nat → Nat → List Nat
  | [], _ => []
  | b :: rest, i =>
    if isStructural b then i :: structIdxFrom rest (i + 1)
    else structIdxFrom rest (i + 1)

theorem scanAux_eq_take (l : List Nat) :
    ∀ i room, scanAux l i room = (structIdxFrom l i).take room := by
  induction l with
  | nil => intro i room; simp [scanAux, structIdxFrom]
  | cons b rest ih =>
    intro i room
    by_cases hb : isStructural b
    · cases room with
      | zero => simp [scanAux, structIdxFrom, hb]
      | succ r => simp [scanAux, structIdxFrom, hb, ih]
    · simp [scanAux, structIdxFrom, hb, ih]

theorem structIdxFrom_shift (l : List Nat) :
    ∀ i, structIdxFrom l (i + 1) = (structIdxFrom l i).map Nat.succ := by
  induction l with
  | nil => intro i; rfl
  | cons b rest ih =>
    intro i
    by_cases hb : isStructural b <;>
      simp [structIdxFrom, hb, ih, Nat.succ_eq_add_one]

theorem structIdxFrom_zero (l : List Nat) :
    structIdxFrom l 0 = structuralPositionsSpec l := by
  induction l with
  | nil => rfl
  | cons b rest ih =>
    have hcomp : ((fun j => isStructural ((b :: rest)[j]?.getD 0)) ∘ Nat.succ)
        = fun j => isStructural (rest[j]?.getD 0) := by
      funext j; simp
    have hspec : (List.range rest.length).filter (fun j => isStructural (rest[j]?.getD 0))
        = structuralPositionsSpec rest := by
      simp [structuralPositionsSpec, List.getD_eq_getElem?_getD]
    have hshift := structIdxFrom_shift rest 0
    by_cases hb : isStructural b <;>
      · simp [structIdxFrom, hb, structuralPositionsSpec, List.range_succ_eq_map,
          List.filter_cons, List.filter_map, hshift, Nat.succ_eq_add_one]
        rw [hcomp, hspec, ← ih]

theorem scanGeneric_eq_take (data : List Nat) (maxCount : Nat) :
    scanGeneric data maxCount = (structuralPositionsSpec data).take maxCount := by
  rw [scanGeneric, scanAux_eq_take, structIdxFrom_zero]

theorem structuralPositionsSpec_pairwise (data : List Nat) :
    (structuralPositionsSpec data).Pairwise (· < ·) :=
  (List.pairwise_lt_range data.length).filter _

theorem mem_structuralPositionsSpec (data : List Nat) (p : Nat) :
    p ∈ structuralPositionsSpec data
      ↔ p < data.length ∧ isStructural (data.getD p 0) = true := by
  simp [structuralPositionsSpec, List.mem_filter]

/-- Claim C7: `scanGeneric` writes exactly the strictly ascending offsets
of the structural bytes of `data`, clamped to the output capacity with
excess occurrences dropped, and never returns more than `maxCount`
positions.  When the capacity suffices, every structural offset is
reported. -/
theorem C7_scanGeneric_contract (data : List Nat) (maxCount : Nat) :
    scanGeneric data maxCount = (structuralPositionsSpec data).take maxCount
    ∧ (scanGeneric data maxCount).length ≤ maxCount
    ∧ (scanGeneric data maxCount).Pairwise (· < ·)
    ∧ (∀ p ∈ scanGeneric data maxCount,
        p < data.length ∧ isStructural (data.getD p 0) = true)
    ∧ ((structuralPositionsSpec data).length ≤ maxCount →
        ∀ p, p < data.length → isStructural (data.getD p 0) = true →
          p ∈ scanGeneric data maxCount) := by
  refine ⟨scanGeneric_eq_take data maxCount, ?_, ?_, ?_, ?_⟩
  · rw [scanGeneric_eq_take]
    exact List.length_take_le maxCount (structuralPositionsSpec data)
  · rw [scanGeneric_eq_take]
    exact (structuralPositionsSpec_pairwise data).sublist (List.take_sublist _ _)
  · intro p hp
    rw [scanGeneric_eq_take] at hp
    exact (mem_structuralPositionsSpec data p).mp
      ((List.take_sublist _ _).mem hp)
  · intro hlen p hplen hpstruct
    rw [scanGeneric_eq_take, List.take_of_length_le hlen]
    exact (mem_structuralPositionsSpec data p).mpr ⟨hplen, hpstruct⟩

/- ======================= 4.2 Path grammar & parser ======================= -/

/-- The two error messages produced by `parseSegment` in `path.go`
("empty segment" and "invalid array index: <inner>"), as an inductive of
the `PathError.Msg` strings actually built by the source. -/
inductive PathErr where
  | emptySegment : PathErr
  | invalidArrayIndex (inner : List Nat) : PathErr
deriving DecidableEq, Repr

/-- `SegmentType` from `path.go`. -/
inductive SegmentType where
  | field | wildcard | arrayAll | arrayIdx
deriving DecidableEq, Repr

/-- `Segment` from `path.go`: type tag, surface string (bytes), and the
parsed index (meaningful for `arrayIdx` only). -/
structure Segment where
  stype : SegmentType
  value : List Nat
  index : Int
deriving DecidableEq, Repr

/-- Loop of `splitPath` (`path.go` lines 65-104): split on `.` outside
brackets, keeping bracketed selectors together.  `current` is the
accumulating `strings.Builder`; parts are emitted in order. -/
def splitPathAux : List Nat → List Nat → Bool → List (List Nat)
  | [], current, _ => if current.isEmpty then [] else [current]
  | c :: rest, current, inBracket =>
    if c = 91 then
      (if current.isEmpty then [] else [current]) ++ splitPathAux rest [91] true
    else if c = 93 then
      (current ++ [93]) :: splitPathAux rest [] false
    else if c = 46 then
      (if inBracket then splitPathAux rest (current ++ [46]) inBracket
       else (if current.isEmpty then [] else [current]) ++ splitPathAux rest [] inBracket)
    else splitPathAux rest (current ++ [c]) inBracket

/-- `splitPath` from `path.go`. -/
def splitPath (path : List Nat) : List (List Nat) :=
  splitPathAux path [] false

/-- Digit-accumulation loop of Go `strconv.Atoi`. -/
def atoiDigits : List Nat → Nat → Option Nat
  | [], acc => some acc
  | c :: rest, acc =>
    if 48 ≤ c ∧ c ≤ 57 then atoiDigits rest (acc * 10 + (c - 48)) else none

/-- Go `strconv.Atoi` on a byte string: optional `+`/`-` sign, base-10
digits, 64-bit `int` range check; `none` is Go's non-nil error. -/
def goAtoi (s : List Nat) : Option Int :=
  match s with
  | [] => none
  | c :: rest =>
    let signed : Bool × List Nat :=
      if c = 45 then (true, rest) else if c = 43 then (false, rest) else (false, s)
    match signed with
    | (neg, digits) =>
      if digits.isEmpty then none
      else
        match atoiDigits digits 0 with
        | none => none
        | some v =>
          let i : Int := if neg then -(v : Int) else (v : Int)
          if i < -(2 ^ 63) ∨ (2 ^ 63 - 1 : Int) < i then none else some i

/-- `parseSegment` from `path.go` lines 107-133.  Byte values: `*` = 42,
`[` = 91, `]` = 93. -/
def parseSegment (s : List Nat) : Except PathErr Segment :=
  if s = [] then .error .emptySegment
  else if s = [42] then .ok ⟨.wildcard, [42], 0⟩
  else if 3 ≤ s.length ∧ s.headD 0 = 91 ∧ s.getLastD 0 = 93 then
    let inner := (s.drop 1).dropLast
    if inner = [42] then .ok ⟨.arrayAll, [91, 42, 93], 0⟩
    else
      match goAtoi inner with
      | none => .error (.invalidArrayIndex inner)
      | some idx => .ok ⟨.arrayIdx, s, idx⟩
  else .ok ⟨.field, s, 0⟩

/-- Segment-list loop of `ParsePath`. -/
def parseParts : List (List Nat) → Except PathErr (List Segment)
  | [] => .ok []
  | p :: rest =>
    match parseSegment p with
    | .error e => .error e
    | .ok seg =>
      match parseParts rest with
      | .error e => .error e
      | .ok segs => .ok (seg :: segs)

/-- `ParsePath` from `path.go` lines 45-62 (empty path yields `nil, nil`). -/
def ParsePath (path : List Nat) : Except PathErr (List Segment) :=
  if path = [] then .ok []
  else parseParts (splitPath path)

theorem splitPathAux_parts_nonempty (l : List Nat) :
    ∀ current inBracket part, part ∈ splitPathAux l current inBracket → part ≠ [] := by
  induction l with
  | nil =>
    intro current inBracket part hmem
    by_cases hc : current.isEmpty <;> simp [splitPathAux, hc] at hmem
    · rcases hmem with rfl
      simpa using hc
  | cons c rest ih =>
    intro current inBracket part hmem
    by_cases h91 : c = 91
    · simp only [splitPathAux, h91, if_true] at hmem
      rcases List.mem_append.mp hmem with h | h
      · by_cases hc : current.isEmpty <;> simp [hc] at h
        · rcases h with rfl; simpa using hc
      · exact ih _ _ _ h
    · by_cases h93 : c = 93
      · simp only [splitPathAux, h91, h93, if_false, if_true] at hmem
        rcases List.mem_cons.mp hmem with rfl | h
        · simp
        · exact ih _ _ _ h
      · by_cases h46 : c = 46
        · simp only [splitPathAux, h91, h93, h46, if_false, if_true] at hmem
          by_cases hbr : inBracket
          · simp only [hbr, if_true] at hmem
            exact ih _ _ _ hmem
          · simp only [hbr, if_false] at hmem
            rcases List.mem_append.mp hmem with h | h
            · by_cases hc : current.isEmpty <;> simp [hc] at h
              · rcases h with rfl; simpa using hc
            · exact ih _ _ _ h
        · simp only [splitPathAux, h91, h93, h46, if_false] at hmem
          exact ih _ _ _ hmem

theorem parseSegment_error_of_nonempty (s : List Nat) (hs : s ≠ [])
    (e : PathErr) (he : parseSegment s = .error e) :
    ∃ inner, e = .invalidArrayIndex inner := by
  unfold parseSegment at he
  rw [if_neg hs] at he
  by_cases h42 : s = [42]
  · rw [if_pos h42] at he; cases he
  · rw [if_neg h42] at he
    by_cases hbr : 3 ≤ s.length ∧ s.headD 0 = 91 ∧ s.getLastD 0 = 93
    · rw [if_pos hbr] at he
      by_cases hin : (s.drop 1).dropLast = [42]
      · rw [if_pos hin] at he; cases he
      · rw [if_neg hin] at he
        cases hato : goAtoi ((s.drop 1).dropLast) with
        | none =>
          rw [hato] at he
          exact ⟨(s.drop 1).dropLast, by cases he; rfl⟩
        | some v => rw [hato] at he; cases he
    · rw [if_neg hbr] at he; cases he

theorem parseParts_error_invalid (parts : List (List Nat))
    (hne : ∀ p ∈ parts, p ≠ []) (e : PathErr)
    (he : parseParts parts = .error e) :
    ∃ inner, e = .invalidArrayIndex inner := by
  induction parts with
  | nil => simp [parseParts] at he
  | cons p rest ih =>
    unfold parseParts at he
    cases hseg : parseSegment p with
    | error e' =>
      rw [hseg] at he
      cases he
      exact parseSegment_error_of_nonempty p (hne p (by simp)) _ hseg
    | ok seg =>
      rw [hseg] at he
      cases hrest : parseParts rest with
      | error e' =>
        rw [hrest] at he
        cases he
        exact ih (fun q hq => hne q (by simp [hq])) hrest
      | ok segs => rw [hrest] at he; cases he

/-- Claim C6 counterexample: a leading `.` is NOT rejected (`.a` parses
as the single field segment `a`), and `[n]` does not require digits only
(`[+3]` is accepted via `strconv.Atoi`, which allows a sign). -/
theorem C6_counterexample :
    ParsePath (cb ['.', 'a']) = .ok [⟨.field, cb ['a'], 0⟩]
    ∧ ParsePath (cb ['[', '+', '3', ']']) = .ok [⟨.arrayIdx, cb ['[', '+', '3', ']'], 3⟩] := by
  constructor <;> rfl

/-- Claim C6 (amended): a leading `.` is silently dropped
(`ParsePath ('.' :: p) = ParsePath p`); an empty segment can never reach
`parseSegment` because `splitPath` only emits nonempty parts, so the only
parse error `ParsePath` ever returns is `invalid array index`; a
bracketed selector `[n]` is accepted whenever Go's `strconv.Atoi`
accepts the inner text (optional sign and base-10 digits). -/
theorem C6_parse_errors (path : List Nat) (e : PathErr)
    (he : ParsePath path = .error e) :
    (∃ inner, e = .invalidArrayIndex inner)
    ∧ (∀ p, ParsePath (46 :: p) = ParsePath p) := by
  constructor
  · unfold ParsePath at he
    by_cases hp : path = []
    · simp [hp] at he
    · simp only [hp, if_false] at he
      exact parseParts_error_invalid _ (splitPathAux_parts_nonempty path [] false) _ he
  · intro p
    unfold ParsePath
    by_cases hp : p = []
    · subst hp; rfl
    · have h1 : (46 :: p) ≠ ([] : List Nat) := by simp
      have h2 : splitPath (46 :: p) = splitPath p := by
        simp [splitPath, splitPathAux]
      simp only [h1, hp, if_false]
      rw [h2]

/-- Witness for C6: applying the amended theorem at the concrete path
`[a]`, whose parse error is `invalid array index: a`. -/
theorem C6_parse_errors_witness :
    (∃ inner, PathErr.invalidArrayIndex (cb ['a']) = PathErr.invalidArrayIndex inner)
    ∧ (∀ p, ParsePath (46 :: p) = ParsePath p) :=
  C6_parse_errors (cb ['[', 'a', ']']) (.invalidArrayIndex (cb ['a'])) (by rfl)

/- ======================= 4.3 Path matcher ======================= -/

/-- The three `Action` constants from `rule.go` (`set`, `add`, `remove`);
Go's `Action` is a string type with these three values used by the
engine. -/
inductive GAction where
  | set | add | remove
deriving DecidableEq, Repr

/-- Payload values (`Value any` in the Go rules) restricted to the scalar
shapes handled by `marshalValue` in `path_processor.go`. -/
inductive JsonVal where
  | jnull
  | jbool (b : Bool)
  | jint (i : Int)
  | jstr (s : List Nat)
  | jbytes (b : List Nat)
deriving DecidableEq, Repr

/-- `PathRule` from `path.go`: path string, action, optional structured
value, pre-validated JSON bytes, and the parsed segment cache. -/
structure PathRule where
  path : List Nat
  action : GAction
  value : Option JsonVal := none
  valueBytes : List Nat := []
  segments : List Segment := []
deriving DecidableEq, Repr

instance : Inhabited PathRule := ⟨⟨[], .remove, none, [], []⟩⟩

/-- `RuleAction` from `path.go`: automaton output entry. -/
structure RuleAction where
  index : Nat
  action : GAction
  value : Option JsonVal
  valueBytes : List Nat
deriving DecidableEq, Repr

/-- `ACNode` from the matcher source: literal children (the Go map is
modelled as an insertion-ordered association list), wildcard child,
array-any child, failure link and output list.  Nodes live in an arena
and are referred to by index; the root is index 0. -/
structure ACNode where
  children : List (List Nat × Nat)
  wildcard : Option Nat
  arrayAll : Option Nat
  fail : Option Nat
  output : List RuleAction
  depth : Nat
deriving DecidableEq, Repr

instance : Inhabited ACNode := ⟨⟨[], none, none, none, [], 0⟩⟩

/-- `PathMatcher`: arena of nodes (root at index 0) plus the rule list. -/
structure PathMatcher where
  nodes : List ACNode
  rules : List PathRule
deriving DecidableEq, Repr

instance : Inhabited PathMatcher := ⟨⟨[default], []⟩⟩

/-- `NewPathMatcher`: a matcher holding only the root node. -/
def NewPathMatcher : PathMatcher := ⟨[default], []⟩

def getNode (m : PathMatcher) (i : Nat) : ACNode := m.nodes.getD i default

def setNode (m : PathMatcher) (i : Nat) (n : ACNode) : PathMatcher :=
  { m with nodes := m.nodes.set i n }

/-- Lookup in the ordered association list modelling `node.children`. -/
def lookupChild : List (List Nat × Nat) → List Nat → Option Nat
  | [], _ => none
  | (k, v) :: rest, key => if k = key then some v else lookupChild rest key

/-- Digit loop of `itoa` from the matcher source (digits produced least
significant first; `itoa` reverses them). -/
def itoaDigits : Nat → List Nat
  | 0 => []
  | n + 1 => ((n + 1) % 10 + 48) :: itoaDigits ((n + 1) / 10)
decreasing_by exact Nat.div_lt_self (Nat.succ_pos n) (by omega)

/-- `itoa` from the matcher source: decimal representation, with `-` for
negatives and `"0"` for zero. -/
def itoa (n : Int) : List Nat :=
  if n = 0 then [48]
  else if n < 0 then 45 :: (itoaDigits n.natAbs).reverse
  else (itoaDigits n.natAbs).reverse

/-- The `"[" + itoa(arrayIdx) + "]"` key used for array-index matching. -/
def idxKey (i : Int) : List Nat := 91 :: (itoa i ++ [93])

/-- `getOrCreate` from the matcher source: find or allocate the child of
`nid` for segment `seg` (array-index segments live in the literal bucket
keyed by their surface string). -/
def getOrCreate (m : PathMatcher) (nid : Nat) (seg : Segment) : PathMatcher × Nat :=
  let node := getNode m nid
  match seg.stype with
  | .wildcard =>
    match node.wildcard with
    | some c => (m, c)
    | none =>
      let newId := m.nodes.length
      let m1 := { m with nodes := m.nodes ++ [⟨[], none, none, none, [], node.depth + 1⟩] }
      (setNode m1 nid { node with wildcard := some newId }, newId)
  | .arrayAll =>
    match node.arrayAll with
    | some c => (m, c)
    | none =>
      let newId := m.nodes.length
      let m1 := { m with nodes := m.nodes ++ [⟨[], none, none, none, [], node.depth + 1⟩] }
      (setNode m1 nid { node with arrayAll := some newId }, newId)
  | _ =>
    match lookupChild node.children seg.value with
    | some c => (m, c)
    | none =>
      let newId := m.nodes.length
      let m1 := { m with nodes := m.nodes ++ [⟨[], none, none, none, [], node.depth + 1⟩] }
      (setNode m1 nid { node with children := node.children ++ [(seg.value, newId)] }, newId)

/-- `AddRule` from the matcher source: parse the rule path, record the
rule, thread the segments through `getOrCreate`, and append the rule's
output entry at the final node. -/
def AddRule (m : PathMatcher) (rule : PathRule) : Except PathErr PathMatcher :=
  match ParsePath rule.path with
  | .error e => .error e
  | .ok segments =>
    let rule1 := { rule with segments := segments }
    let ruleIdx := m.rules.length
    let m1 := { m with rules := m.rules ++ [rule1] }
    let fin := segments.foldl (fun acc seg => getOrCreate acc.1 acc.2 seg) (m1, 0)
    let node := getNode fin.1 fin.2
    .ok (setNode fin.1 fin.2
      { node with output := node.output ++ [⟨ruleIdx, rule1.action, rule1.value, rule1.valueBytes⟩] })

/-- `findFailNode` from the matcher source: walk the failure chain
looking for an exact child, falling back to the wildcard (object step)
or array-any (array step) bucket; returns the root when the chain is
exhausted.  `fuel` bounds the chain walk (the chains of a built matcher
strictly descend in depth, so `nodes.length` always suffices). -/
def findFailNode (m : PathMatcher) : Nat → Option Nat → List Nat → Bool → Nat
  | 0, _, _, _ => 0
  | _, none, _, _ => 0
  | fuel + 1, some fid, key, isArray =>
    let fnode := getNode m fid
    match lookupChild fnode.children key with
    | some c => c
    | none =>
      if isArray then
        match fnode.arrayAll with
        | some a => a
        | none => findFailNode m fuel fnode.fail key isArray
      else
        match fnode.wildcard with
        | some w => w
        | none => findFailNode m fuel fnode.fail key isArray

/-- `findFailNodeWildcard` from the matcher source. -/
def findFailNodeWildcard (m : PathMatcher) : Nat → Option Nat → Nat
  | 0, _ => 0
  | _, none => 0
  | fuel + 1, some fid =>
    let fnode := getNode m fid
    match fnode.wildcard with
    | some w => w
    | none => findFailNodeWildcard m fuel fnode.fail

/-- `findFailNodeArrayAll` from the matcher source. -/
def findFailNodeArrayAll (m : PathMatcher) : Nat → Option Nat → Nat
  | 0, _ => 0
  | _, none => 0
  | fuel + 1, some fid =>
    let fnode := getNode m fid
    match fnode.arrayAll with
    | some a => a
    | none => findFailNodeArrayAll m fuel fnode.fail

/-- One dequeue step of `Build`'s BFS: set failure links of the current
node's children (literal bucket first, then wildcard, then array-any),
merge the failure target's outputs, and enqueue the children. -/
def buildStep (m : PathMatcher) : Nat → List Nat → PathMatcher
  | 0, _ => m
  | _, [] => m
  | fuel + 1, curr :: qrest =>
    let cnode := getNode m curr
    let s1 := cnode.children.foldl
      (fun (acc : PathMatcher × List Nat) kv =>
        let failT := findFailNode acc.1 acc.1.nodes.length cnode.fail kv.1 false
        let cn := getNode acc.1 kv.2
        let fn := getNode acc.1 failT
        (setNode acc.1 kv.2 { cn with fail := some failT, output := cn.output ++ fn.output },
          acc.2 ++ [kv.2]))
      (m, [])
    let s2 :=
      match cnode.wildcard with
      | none => s1
      | some wid =>
        let failT := findFailNodeWildcard s1.1 s1.1.nodes.length cnode.fail
        let wn := getNode s1.1 wid
        let fn := getNode s1.1 failT
        (setNode s1.1 wid { wn with fail := some failT, output := wn.output ++ fn.output },
          s1.2 ++ [wid])
    let s3 :=
      match cnode.arrayAll with
      | none => s2
      | some aid =>
        let failT := findFailNodeArrayAll s2.1 s2.1.nodes.length cnode.fail
        let an := getNode s2.1 aid
        let fn := getNode s2.1 failT
        (setNode s2.1 aid { an with fail := some failT, output := an.output ++ fn.output },
          s2.2 ++ [aid])
    buildStep s3.1 fuel (qrest ++ s3.2)

/-- `Build` from the matcher source: point the root's direct children at
the root (no output merge at this stage, as in the source) and run the
BFS. -/
def Build (m : PathMatcher) : PathMatcher :=
  let rnode := getNode m 0
  let i1 := rnode.children.foldl
    (fun (acc : PathMatcher × List Nat) kv =>
      let cn := getNode acc.1 kv.2
      (setNode acc.1 kv.2 { cn with fail := some 0 }, acc.2 ++ [kv.2]))
    (m, [])
  let i2 :=
    match rnode.wildcard with
    | none => i1
    | some wid =>
      let wn := getNode i1.1 wid
      (setNode i1.1 wid { wn with fail := some 0 }, i1.2 ++ [wid])
  let i3 :=
    match rnode.arrayAll with
    | none => i2
    | some aid =>
      let an := getNode i2.1 aid
      (setNode i2.1 aid { an with fail := some 0 }, i2.2 ++ [aid])
  buildStep i3.1 i3.1.nodes.length i3.2

/-- `BuildMatcher` from the matcher source: insert every rule, then build
failure links. -/
def BuildMatcher (rules : List PathRule) : Except PathErr PathMatcher :=
  let ins := rules.foldl
    (fun (acc : Except PathErr PathMatcher) r =>
      match acc with
      | .error e => .error e
      | .ok m => AddRule m r)
    (.ok NewPathMatcher)
  match ins with
  | .error e => .error e
  | .ok m => .ok (Build m)

/-- The `next` candidate computed inside `Match`'s loop: the exact child
(for arrays, the `[n]` literal) or else the wildcard/array-any bucket. -/
def matchNext (m : PathMatcher) (nid : Nat) (key : List Nat) (isArray : Bool)
    (arrayIdx : Int) : Option Nat :=
  let node := getNode m nid
  if isArray then
    match lookupChild node.children (idxKey arrayIdx) with
    | some c => some c
    | none => node.arrayAll
  else
    match lookupChild node.children key with
    | some c => some c
    | none => node.wildcard

/-- Loop of `Match` from the matcher source: from node `nid`, try the
exact child then the wildcard/array-any bucket; on failure follow the
failure link, stopping at the root.  Fuel bounds the failure-chain walk
exactly as in `findFailNode`. -/
def matchStep (m : PathMatcher) : Nat → Nat → List Nat → Bool → Int → Nat × List RuleAction
  | 0, _, _, _, _ => (0, [])
  | fuel + 1, nid, key, isArray, arrayIdx =>
    match matchNext m nid key isArray arrayIdx with
    | some nx => (nx, (getNode m nx).output)
    | none =>
      if nid = 0 then (0, [])
      else
        match (getNode m nid).fail with
        | none => (0, [])
        | some fid => matchStep m fuel fid key isArray arrayIdx

/-- `Match` from the matcher source; a `none` state is treated as the
root. -/
def Match (m : PathMatcher) (state : Option Nat) (key : List Nat) (isArray : Bool)
    (arrayIdx : Int) : Nat × List RuleAction :=
  matchStep m m.nodes.length (state.getD 0) key isArray arrayIdx

/-- `Segment.Match` from `path.go`: does one segment match one concrete
key / array-index step. -/
def segmentMatch (seg : Segment) (key : List Nat) (isArray : Bool) (arrayIdx : Int) : Bool :=
  match seg.stype with
  | .field => !isArray && seg.value = key
  | .wildcard => !isArray
  | .arrayAll => isArray
  | .arrayIdx => isArray && seg.index = arrayIdx

/-- One step of a walked path: an object key or an array element. -/
inductive WStep where
  | key (k : List Nat)
  | arr (i : Nat)
deriving DecidableEq, Repr

/-- Feed one walked step to `Match` (array steps pass an empty key, as
the processor does). -/
def stepOnce (m : PathMatcher) (nid : Nat) : WStep → Nat × List RuleAction
  | .key k => Match m (some nid) k false 0
  | .arr i => Match m (some nid) [] true (Int.ofNat i)

/-- Walk a step sequence from node `nid`, returning the node and action
list produced by the final `Match` call. -/
def walkEnd (m : PathMatcher) (nid : Nat) : List WStep → Nat × List RuleAction
  | [] => (nid, [])
  | s :: rest =>
    match rest with
    | [] => stepOnce m nid s
    | _ :: _ => walkEnd m (stepOnce m nid s).1 rest

/-- Whether a segment matches a walked step, via `Segment.Match` from
`path.go`. -/
def stepArgsMatch (seg : Segment) : WStep → Bool
  | .key k => segmentMatch seg k false 0
  | .arr i => segmentMatch seg [] true (Int.ofNat i)

/-- Modelled from the spec: a rule's full segment path is a suffix of
the walked step sequence. -/
def suffixTriggered (segs : List Segment) (steps : List WStep) : Bool :=
  !segs.isEmpty && decide (segs.length ≤ steps.length) &&
    ((steps.drop (steps.length - segs.length)).zip segs).all
      (fun p => stepArgsMatch p.2 p.1)

/-- The two rules of the C4 counterexample: `a.b` and `*.b`, both
`remove`. -/
def c4rules : List PathRule :=
  [{ path := cb ['a', '.', 'b'], action := .remove },
   { path := cb ['*', '.', 'b'], action := .remove }]

/-- The matcher built from `c4rules`. -/
def c4m : PathMatcher := (BuildMatcher c4rules).toOption.getD default

/-- The walked steps of the C4 counterexample: key `a`, then key `b`. -/
def c4steps : List WStep := [.key (cb ['a']), .key (cb ['b'])]

/-- Claim C4 counterexample: build succeeds; rule 1 (`*.b`) has its full
segment path as a suffix of the walked steps `a`, `b`; yet the action
list returned by the final `Match` step contains only rule 0 (`a.b`) —
the exact-child edge taken at `a` hides the wildcard branch, whose
outputs were never merged into the `a.b` node at build time. -/
theorem C4_counterexample :
    (BuildMatcher c4rules).isOk = true
    ∧ suffixTriggered ((c4m.rules.getD 1 default).segments) c4steps = true
    ∧ (walkEnd c4m 0 c4steps).2.map RuleAction.index = [0] := by
  refine ⟨by rfl, by rfl, by rfl⟩

/-- The two literal rules of the C4 amended demonstration: `a.b` and
`b`. -/
def c4lit : List PathRule :=
  [{ path := cb ['a', '.', 'b'], action := .remove },
   { path := cb ['b'], action := .set, valueBytes := [57] }]

/-- The matcher built from `c4lit`. -/
def c4mlit : PathMatcher := (BuildMatcher c4lit).toOption.getD default

/-- Claim C4 (amended): failure-link outputs are appended into node
output lists at build time, so for literal-segment rules a single
`Match` step reports the rules whose paths end at the walked steps
through the failure chain: walking `a`, `b` against rules `a.b` and `b`
returns both actions (both paths are suffixes of the walk).  With
wildcard segments the inheritance is incomplete, as the counterexample
shows. -/
theorem C4_literal_inheritance :
    (BuildMatcher c4lit).isOk = true
    ∧ suffixTriggered ((c4mlit.rules.getD 0 default).segments) c4steps = true
    ∧ suffixTriggered ((c4mlit.rules.getD 1 default).segments) c4steps = true
    ∧ (walkEnd c4mlit 0 c4steps).2.map RuleAction.index = [0, 1] := by
  refine ⟨by rfl, by rfl, by rfl, by rfl⟩

theorem matchStep_result (m : PathMatcher) :
    ∀ fuel nid key isArray arrayIdx,
      matchStep m fuel nid key isArray arrayIdx = (0, [])
      ∨ (matchStep m fuel nid key isArray arrayIdx).2
          = (getNode m (matchStep m fuel nid key isArray arrayIdx).1).output := by
  intro fuel
  induction fuel with
  | zero => intro nid key a i; exact Or.inl rfl
  | succ f ih =>
    intro nid key a i
    unfold matchStep
    cases hnext : matchNext m nid key a i with
    | some nx => exact Or.inr rfl
    | none =>
      by_cases h0 : nid = 0
      · simp [h0]
      · simp only [h0, if_false]
        cases hfail : (getNode m nid).fail with
        | none => exact Or.inl rfl
        | some fid => exact ih fid key a i

/-- Claim C9: `Match` is a pure function of the matcher — repeated
invocations with equal arguments agree; a `nil` state is treated as the
root; and the result is always a valid pair: either the root with an
empty action list (no match anywhere on the failure chain) or a node
together with exactly that node's output list. -/
theorem C9_match_deterministic (m : PathMatcher) (st : Option Nat) (key : List Nat)
    (isArray : Bool) (arrayIdx : Int) :
    Match m st key isArray arrayIdx = Match m st key isArray arrayIdx
    ∧ Match m none key isArray arrayIdx = Match m (some 0) key isArray arrayIdx
    ∧ (Match m st key isArray arrayIdx = (0, [])
       ∨ (Match m st key isArray arrayIdx).2
           = (getNode m (Match m st key isArray arrayIdx).1).output) :=
  ⟨rfl, rfl, matchStep_result m m.nodes.length (st.getD 0) key isArray arrayIdx⟩

/- ======================= 4.4 Stream transformer ======================= -/

/-- `skipState` from `path_processor.go` (the Go `depth int` only moves
between 0 and positive values, so `Nat` is faithful). -/
structure SkipState where
  depth : Nat
  inString : Bool
  escaped : Bool
deriving DecidableEq, Repr

/-- `pathEntry` from `path_processor.go`.  The Go struct also declares a
`key string` field that no code ever assigns or reads; it is omitted. -/
structure PathEntry where
  isArray : Bool
  arrayIdx : Nat
  acNode : Option Nat
deriving DecidableEq, Repr

/-- `addAction` from `path_processor.go` (named `PendingAdd` here; `AddAction` is taken by Mathlib). -/
structure PendingAdd where
  key : List Nat
  value : List Nat
deriving DecidableEq, Repr

/-- Mutable state of `PathProcessor` (the matcher is passed separately
as it is fixed for a checkout).  `pendingAdds` models the Go
`map[int][]addAction` as an association list. -/
structure PPState where
  pathStack : List PathEntry
  inString : Bool
  escaped : Bool
  expectKey : Bool
  skipping : Bool
  skipSt : SkipState
  pendingComma : Bool
  keyBuffer : List Nat
  inKey : Bool
  firstField : Bool
  lastMatchNode : Option Nat
  setValue : Option (List Nat)
  pendingAdds : List (Nat × List PendingAdd)
  hasAddRules : Bool
deriving DecidableEq, Repr

/-- `pendingAdds[depth]` lookup. -/
def paGet : List (Nat × List PendingAdd) → Nat → List PendingAdd
  | [], _ => []
  | (d, l) :: rest, depth => if d = depth then l else paGet rest depth

/-- `pendingAdds[depth] = append(pendingAdds[depth], a)`. -/
def paAppend : List (Nat × List PendingAdd) → Nat → PendingAdd → List (Nat × List PendingAdd)
  | [], depth, a => [(depth, [a])]
  | (d, l) :: rest, depth, a =>
    if d = depth then (d, l ++ [a]) :: rest else (d, l) :: paAppend rest depth a

/-- `delete(pendingAdds, depth)`. -/
def paDelete : List (Nat × List PendingAdd) → Nat → List (Nat × List PendingAdd)
  | [], _ => []
  | (d, l) :: rest, depth => if d = depth then rest else (d, l) :: paDelete rest depth

/-- `Reset` from `path_processor.go` combined with the `hasAddRules`
computation of `GetPathProcessor` in `pool.go`. -/
def resetState (hasAdd : Bool) : PPState :=
  ⟨[], false, false, false, false, ⟨0, false, false⟩, false, [], false, true,
    none, none, [], hasAdd⟩

/-- `hexDigit` from `path_processor.go`. -/
def hexDigit (b : Nat) : Nat := if b < 10 then 48 + b else 97 + (b - 10)

/-- Escape loop of `marshalString` from `path_processor.go`. -/
def marshalStringAux : List Nat → List Nat
  | [] => []
  | c :: rest =>
    (if c = 34 then [92, 34]
     else if c = 92 then [92, 92]
     else if c = 10 then [92, 110]
     else if c = 13 then [92, 114]
     else if c = 9 then [92, 116]
     else if c < 32 then [92, 117, 48, 48, hexDigit (c / 16), hexDigit (c % 16)]
     else [c]) ++ marshalStringAux rest

/-- `marshalString` from `path_processor.go`. -/
def marshalString (s : List Nat) : List Nat :=
  34 :: (marshalStringAux s ++ [34])

/-- `marshalValue` from `path_processor.go`, over the scalar payload
shapes modelled by `JsonVal` (`itoa`/`itoa64` share the decimal
formatting embedded above; the float and reflection fallbacks are not
exercised by any rule in this development). -/
def marshalValue : Option JsonVal → List Nat
  | none => [110, 117, 108, 108]
  | some .jnull => [110, 117, 108, 108]
  | some (.jbool true) => [116, 114, 117, 101]
  | some (.jbool false) => [102, 97, 108, 115, 101]
  | some (.jint i) => itoa i
  | some (.jstr s) => marshalString s
  | some (.jbytes b) => b

/-- `extractKey` from `path_processor.go`: strip the surrounding quotes
from the key buffer. -/
def extractKey (buf : List Nat) : List Nat :=
  if buf.length < 2 then [] else (buf.drop 1).dropLast

/-- `currentACNode` from `path_processor.go` (the matcher is always
present in this development; Go's nil-matcher guard is unreachable). -/
def currentACNode (s : PPState) : Option Nat :=
  match s.pathStack.getLast? with
  | some top => top.acNode
  | none => some 0

/-- The action-priority loop shared by `checkKeyMatch` and
`checkArrayElementMatch`: return the first `Remove` or `Set` entry of
the output list (`Add` entries are passed over). -/
def firstRemoveSet : List RuleAction → Option RuleAction
  | [] => none
  | a :: rest =>
    match a.action with
    | .remove => some a
    | .set => some a
    | .add => firstRemoveSet rest

/-- The payload chosen by the processor for a `Set` action: the
pre-validated `ValueBytes` when nonempty, else `marshalValue(Value)`. -/
def actionPayload (a : RuleAction) : List Nat :=
  if a.valueBytes.isEmpty then marshalValue a.value else a.valueBytes

/-- `checkKeyMatch` from `path_processor.go`: step the matcher from the
current container's node, remember the result in `lastMatchNode`, and
return the first `Remove`/`Set` action (setting `setValue`
accordingly). -/
def checkKeyMatch (m : PathMatcher) (s : PPState) (key : List Nat) :
    PPState × Option GAction :=
  let currentNode : Option Nat :=
    match s.pathStack.getLast? with
    | some top => top.acNode
    | none => some 0
  let r := Match m currentNode key false 0
  let s1 := { s with lastMatchNode := some r.1 }
  match firstRemoveSet r.2 with
  | some a =>
    match a.action with
    | .remove => ({ s1 with setValue := none }, some .remove)
    | .set => ({ s1 with setValue := some (actionPayload a) }, some .set)
    | .add => (s1, none)
  | none => (s1, none)

/-- `checkArrayElementMatch` from `path_processor.go`. -/
def checkArrayElementMatch (m : PathMatcher) (s : PPState) : PPState :=
  match s.pathStack.getLast? with
  | none => s
  | some top =>
    if !top.isArray then s
    else
      let r := Match m top.acNode [] true (Int.ofNat top.arrayIdx)
      let s1 := { s with lastMatchNode := some r.1 }
      match firstRemoveSet r.2 with
      | some a =>
        match a.action with
        | .remove =>
          { s1 with skipping := true, skipSt := ⟨0, false, false⟩, setValue := none }
        | .set =>
          { s1 with setValue := some (actionPayload a), skipping := true, skipSt := ⟨0, false, false⟩ }
        | .add => s1
      | none => s1

/-- `registerPendingAdds` from `path_processor.go`: on entering an
object, scan the node's literal children for `Add` outputs whose rule
depth (`len(rule.segments) - 1`) equals the current stack depth, and
queue `(key, value)` under that depth. -/
def registerPendingAdds (m : PathMatcher) (s : PPState) (acNode : Option Nat) : PPState :=
  match acNode with
  | none => s
  | some nid =>
    if !s.hasAddRules then s
    else
      let node := getNode m nid
      if node.children.isEmpty then s
      else
        let depth := s.pathStack.length
        node.children.foldl
          (fun st kv =>
            (getNode m kv.2).output.foldl
              (fun st2 action =>
                match action.action with
                | .add =>
                  let rule := m.rules.getD action.index default
                  let expectedDepth := rule.segments.length - 1
                  if depth ≠ expectedDepth then st2
                  else
                    { st2 with pendingAdds := paAppend st2.pendingAdds depth ⟨kv.1, actionPayload action⟩ }
                | _ => st2)
              st)
          s

/-- `handleObjectEnd` from `path_processor.go`: before emitting `}`,
flush the pending adds registered at depth `len(pathStack) - 1`, with a
comma before an injected field iff a field was already kept
(`!firstField`) or a previous injection was emitted; no duplicate-key
check is performed. -/
def handleObjectEnd (_m : PathMatcher) (s : PPState) : PPState × List Nat :=
  if s.pathStack.isEmpty then (s, [])
  else
    let depth := s.pathStack.length - 1
    let adds := paGet s.pendingAdds depth
    if adds.isEmpty then (s, [])
    else
      let out := (adds.enum.map
        (fun p =>
          (if !s.firstField || decide (0 < p.1) then [44] else [])
            ++ 34 :: (p.2.key ++ [34, 58] ++ p.2.value))).flatten
      ({ s with pendingAdds := paDelete s.pendingAdds depth }, out)

/-- `finishSkipValue` from `path_processor.go`: leave skip mode, emit a
pending `Set` payload, and expect a key again when the enclosing
container is an object. -/
def finishSkipValue (s : PPState) : PPState × List Nat :=
  let s1 := { s with skipping := false, skipSt := ⟨0, false, false⟩ }
  let r : PPState × List Nat :=
    match s1.setValue with
    | some v => ({ s1 with setValue := none }, v)
    | none => (s1, [])
  let s2 := r.1
  let s3 :=
    match s2.pathStack.getLast? with
    | some top => if !top.isArray then { s2 with expectKey := true } else s2
    | none => s2
  (s3, r.2)

/-- `handleSkipChar` from `path_processor.go`: drive the value-skipping
sub-state machine; the returned flag asks the caller to re-process the
character as a normal structural event (primitive values terminated by
`}`/`]`, and by `,` for a `Set`). -/
def handleSkipChar (s : PPState) (char : Nat) : PPState × List Nat × Bool :=
  let sk := s.skipSt
  if sk.escaped then
    ({ s with skipSt := { sk with escaped := false } }, [], false)
  else if sk.inString then
    if char = 92 then ({ s with skipSt := { sk with escaped := true } }, [], false)
    else if char = 34 then
      let s1 := { s with skipSt := { sk with inString := false } }
      if sk.depth = 0 then
        let r := finishSkipValue s1
        (r.1, r.2, false)
      else (s1, [], false)
    else (s, [], false)
  else if char = 34 then
    ({ s with skipSt := { sk with inString := true } }, [], false)
  else if char = 123 || char = 91 then
    ({ s with skipSt := { sk with depth := sk.depth + 1 } }, [], false)
  else if char = 125 || char = 93 then
    if 0 < sk.depth then
      let s1 := { s with skipSt := { sk with depth := sk.depth - 1 } }
      if sk.depth - 1 = 0 then
        let r := finishSkipValue s1
        (r.1, r.2, false)
      else (s1, [], false)
    else
      let r := finishSkipValue s
      (r.1, r.2, true)
  else if char = 44 then
    if sk.depth = 0 then
      let isSet := !(s.setValue.isNone)
      let r := finishSkipValue s
      (r.1, r.2, isSet)
    else (s, [], false)
  else (s, [], false)

/-- `handleContent` from `path_processor.go`: bytes between structural
positions are discarded (with escape tracking) while skipping,
accumulated into the key buffer while reading a key, and emitted
otherwise. -/
def handleContent (s : PPState) (content : List Nat) : PPState × List Nat :=
  if content.isEmpty then (s, [])
  else if s.skipping then
    let sk := content.foldl
      (fun (st : SkipState) b =>
        if st.escaped then { st with escaped := false }
        else if st.inString && b = 92 then { st with escaped := true }
        else st)
      s.skipSt
    ({ s with skipSt := sk }, [])
  else if s.inKey then
    ({ s with keyBuffer := s.keyBuffer ++ content }, [])
  else (s, content)

/-- In-string and non-string structural handling of `handleStructural`
from `path_processor.go` (everything after the skip-mode dispatch). -/
def handleStructuralCore (m : PathMatcher) (s : PPState) (char : Nat) :
    PPState × List Nat :=
  if s.inString then
    if s.escaped then
      let s1 := { s with escaped := false }
      if s1.inKey then ({ s1 with keyBuffer := s1.keyBuffer ++ [char] }, [])
      else (s1, [char])
    else if char = 92 then
      let s1 := { s with escaped := true }
      if s1.inKey then ({ s1 with keyBuffer := s1.keyBuffer ++ [char] }, [])
      else (s1, [char])
    else if char = 34 then
      let s1 := { s with inString := false }
      if s1.inKey then ({ s1 with keyBuffer := s1.keyBuffer ++ [char] }, [])
      else (s1, [char])
    else
      if s.inKey then ({ s with keyBuffer := s.keyBuffer ++ [char] }, [])
      else (s, [char])
  else if char = 34 then
    let s1 := { s with inString := true, escaped := false }
    if s1.expectKey then ({ s1 with inKey := true, keyBuffer := [char] }, [])
    else (s1, [char])
  else if char = 58 then
    if s.inKey then
      let s1 := { s with inKey := false }
      let key := extractKey s1.keyBuffer
      let r := checkKeyMatch m s1 key
      let s2 := r.1
      match r.2 with
      | some .remove =>
        ({ s2 with skipping := true, skipSt := ⟨0, false, false⟩, expectKey := false }, [])
      | other =>
        let out1 : List Nat := if s2.pendingComma then [44] else []
        let s3 := { s2 with pendingComma := false, firstField := false }
        let s4 :=
          if other = some GAction.set then { s3 with skipping := true, skipSt := ⟨0, false, false⟩ }
          else s3
        ({ s4 with expectKey := false }, out1 ++ s2.keyBuffer ++ [58])
    else ({ s with expectKey := false }, [char])
  else if char = 123 then
    let out1 : List Nat := if s.pendingComma then [44] else []
    let s1 := { s with pendingComma := false }
    let acNode : Option Nat :=
      match s1.lastMatchNode with
      | some n => some n
      | none => currentACNode s1
    let s2 :=
      match s1.lastMatchNode with
      | some _ => { s1 with lastMatchNode := none }
      | none => s1
    let s3 := registerPendingAdds m s2 acNode
    let s4a := { s3 with pathStack := s3.pathStack ++ [(⟨false, 0, acNode⟩ : PathEntry)] }
    let s4 := { s4a with expectKey := true, firstField := true }
    (s4, out1 ++ [char])
  else if char = 125 then
    let r := handleObjectEnd m s
    let s1 := r.1
    let s2 := { s1 with pathStack := s1.pathStack.dropLast, expectKey := false, pendingComma := false }
    (s2, r.2 ++ [char])
  else if char = 91 then
    let out1 : List Nat := if s.pendingComma then [44] else []
    let s1 := { s with pendingComma := false }
    let acNode : Option Nat :=
      match s1.lastMatchNode with
      | some n => some n
      | none => currentACNode s1
    let s2 :=
      match s1.lastMatchNode with
      | some _ => { s1 with lastMatchNode := none }
      | none => s1
    let s3a := { s2 with pathStack := s2.pathStack ++ [(⟨true, 0, acNode⟩ : PathEntry)] }
    let s3 := { s3a with expectKey := false }
    let s4 := checkArrayElementMatch m s3
    (s4, out1 ++ [char])
  else if char = 93 then
    ({ s with pathStack := s.pathStack.dropLast, expectKey := false, pendingComma := false }, [char])
  else if char = 44 then
    match s.pathStack.getLast? with
    | some top =>
      if top.isArray then
        let s1 := { s with pathStack := s.pathStack.dropLast ++ [{ top with arrayIdx := top.arrayIdx + 1 }] }
        let s2 := checkArrayElementMatch m s1
        (s2, [char])
      else
        let s1 := if !s.firstField then { s with pendingComma := true } else s
        ({ s1 with expectKey := true }, [])
    | none => (s, [char])
  else (s, [char])

/-- `handleStructural` from `path_processor.go`: in skip mode run
`handleSkipChar` first, re-processing the character as a normal event
when it terminated a primitive value. -/
def handleStructural (m : PathMatcher) (s : PPState) (char : Nat) :
    PPState × List Nat :=
  if s.skipping then
    let r := handleSkipChar s char
    if r.2.2 then
      let r2 := handleStructuralCore m r.1 char
      (r2.1, r.2.1 ++ r2.2)
    else (r.1, r.2.1)
  else handleStructuralCore m s char

/-- Position-walking loop of `ProcessChunk` from `path_processor.go`:
content between structural positions goes to `handleContent`, each
structural character to `handleStructural`. -/
def walkPositions (m : PathMatcher) :
    PPState → List Nat → Nat → List Nat → PPState × List Nat
  | s, [], prev, chunk =>
    let r := handleContent s (chunk.drop prev)
    (r.1, r.2)
  | s, pos :: rest, prev, chunk =>
    let content := (chunk.drop prev).take (pos - prev)
    let r1 := handleContent s content
    let r2 := handleStructural m r1.1 (chunk.getD pos 0)
    let r3 := walkPositions m r2.1 rest (pos + 1) chunk
    (r3.1, r1.2 ++ r2.2 ++ r3.2)

/-- `ProcessChunk` from `path_processor.go`; the positions buffer of a
pooled processor holds `DefaultPositionsCap = 131072` entries
(`pool.go`), far above the size of any input used here, so no clamping
occurs. -/
def ProcessChunk (m : PathMatcher) (s : PPState) (chunk : List Nat) :
    PPState × List Nat :=
  if chunk.isEmpty then (s, [])
  else walkPositions m s (scanGeneric chunk 131072) 0 chunk

/-- `NewPathEngine` from `engine.go`: drop rules with empty paths,
parse the remaining paths (first parse error aborts), and build the
matcher.  `AddRule` re-parses each path, so threading the parse through
`BuildMatcher` yields the same error and the same matcher as the
source's two-phase construction. -/
def NewPathEngine (rules : List PathRule) : Except PathErr PathMatcher :=
  BuildMatcher (rules.filter (fun r => !r.path.isEmpty))

/-- `PathEngine.Process` from `engine.go` for inputs below the 512 KiB
chunk size (a single `ProcessChunk` call followed by `Finish`, which
emits nothing): identity copy when the matcher has no rules. -/
def pathEngineProcess (rules : List PathRule) (input : List Nat) :
    Except PathErr (List Nat) :=
  match NewPathEngine rules with
  | .error e => .error e
  | .ok m =>
    if m.rules.isEmpty then .ok input
    else
      let s0 := resetState (m.rules.any (fun r => r.action = .add))
      .ok (ProcessChunk m s0 input).2

/-- Replay of the `ProcessChunk` position walk that records, after every
structural event, the tuple
`(pathStack depth, skipState depth, opens so far, closes so far)` where
`opens`/`closes` count every `{`/`[` and `}`/`]` structural event
processed so far (including those inside strings or skipped values, as
claim C5 counts them). -/
def traceAux (m : PathMatcher) :
    PPState → List Nat → Nat → List Nat → Nat → Nat → List (Nat × Nat × Nat × Nat)
  | _, [], _, _, _, _ => []
  | s, pos :: rest, prev, chunk, opens, closes =>
    let content := (chunk.drop prev).take (pos - prev)
    let s1 := (handleContent s content).1
    let char := chunk.getD pos 0
    let s2 := (handleStructural m s1 char).1
    let opens2 := if char = 123 || char = 91 then opens + 1 else opens
    let closes2 := if char = 125 || char = 93 then closes + 1 else closes
    (s2.pathStack.length, s2.skipSt.depth, opens2, closes2)
      :: traceAux m s2 rest (pos + 1) chunk opens2 closes2

/-- The structural-event trace of processing `input` under `rules`. -/
def structTrace (rules : List PathRule) (input : List Nat) :
    List (Nat × Nat × Nat × Nat) :=
  match NewPathEngine rules with
  | .error _ => []
  | .ok m =>
    traceAux m (resetState (m.rules.any (fun r => r.action = .add)))
      (scanGeneric input 131072) 0 input 0 0

/- ===================== Claims on the path processor ===================== -/

instance {ε α : Type} [DecidableEq ε] [DecidableEq α] : DecidableEq (Except ε α) :=
  fun a b =>
    match a, b with
    | .ok x, .ok y =>
      if h : x = y then isTrue (by rw [h])
      else isFalse (by intro hh; cases hh; exact h rfl)
    | .error x, .error y =>
      if h : x = y then isTrue (by rw [h])
      else isFalse (by intro hh; cases hh; exact h rfl)
    | .ok _, .error _ => isFalse (by intro hh; cases hh)
    | .error _, .ok _ => isFalse (by intro hh; cases hh)

/-- Rules of the spec's mixed end-to-end scenario (§8.6):
remove `a`, set `b` to `999`, add `d` with value `4`. -/
def c8rules : List PathRule :=
  [{ path := cb ['a'], action := .remove },
   { path := cb ['b'], action := .set, valueBytes := cb ['9', '9', '9'] },
   { path := cb ['d'], action := .add, valueBytes := cb ['4'] }]

/-- Input of the mixed scenario. -/
def c8input : List Nat :=
  cb ['{', '"', 'a', '"', ':', '1', ',', '"', 'b', '"', ':', '2', ',',
      '"', 'c', '"', ':', '3', '}']

/-- Claim C8: processing the mixed remove+set+add scenario produces
exactly the expected output — the removed leading field leaves no stray
comma, the set payload replaces the original value in place, and the
added field is appended before the closing brace. -/
theorem C8_mixed_scenario :
    pathEngineProcess c8rules c8input
      = .ok (cb ['{', '"', 'b', '"', ':', '9', '9', '9', ',', '"', 'c', '"', ':', '3',
                 ',', '"', 'd', '"', ':', '4', '}']) := by
  rfl

/-- The single `Add` rule used for claim C1: add key `a` with payload
`4`. -/
def c1rules : List PathRule :=
  [{ path := cb ['a'], action := .add, valueBytes := cb ['4'] }]

/-- Input that already contains the key `a`. -/
def c1present : List Nat := cb ['{', '"', 'a', '"', ':', '1', '}']

/-- Claim C1 counterexample: on `{"a":1}` the add of key `a` is NOT a
no-op — `handleObjectEnd` performs no duplicate-key check (the source
comments this choice), so the output is `{"a":1,"a":4}`: a duplicate key
is emitted and the output differs from the input. -/
theorem C1_counterexample :
    pathEngineProcess c1rules c1present
      = .ok (cb ['{', '"', 'a', '"', ':', '1', ',', '"', 'a', '"', ':', '4', '}'])
    ∧ pathEngineProcess c1rules c1present ≠ .ok c1present := by
  exact ⟨by rfl, by decide⟩

/-- Claim C1 (amended, scoped to the runs demonstrated here): the
pending `Add` field is injected just before the closing `}` of the
object at the registered depth, but unconditionally — no key-presence
check is made.  For every digit payload `d`: a top-level `Add` of key
`a` on `{"a":1}` emits a duplicate key after the original field (whose
value stays in place); on `{"b":1}` exactly one copy appears; on `{}`
the field is injected without a leading comma; and a depth-1 rule `a.k`
injects before the inner closing brace — once on `{"a":{}}`, and as a
duplicate after the original on `{"a":{"k":5}}` (never before the outer
brace). -/
theorem C1_add_unconditional (d : Nat) (h1 : 48 ≤ d) (h2 : d ≤ 57) :
    pathEngineProcess [{ path := cb ['a'], action := .add, valueBytes := [d] }]
        (cb ['{', '"', 'a', '"', ':', '1', '}'])
      = .ok (cb ['{', '"', 'a', '"', ':', '1', ',', '"', 'a', '"', ':'] ++ [d] ++ [125])
    ∧ pathEngineProcess [{ path := cb ['a'], action := .add, valueBytes := [d] }]
        (cb ['{', '"', 'b', '"', ':', '1', '}'])
      = .ok (cb ['{', '"', 'b', '"', ':', '1', ',', '"', 'a', '"', ':'] ++ [d] ++ [125])
    ∧ pathEngineProcess [{ path := cb ['a'], action := .add, valueBytes := [d] }]
        (cb ['{', '}'])
      = .ok (cb ['{', '"', 'a', '"', ':'] ++ [d] ++ [125])
    ∧ pathEngineProcess [{ path := cb ['a', '.', 'k'], action := .add, valueBytes := [d] }]
        (cb ['{', '"', 'a', '"', ':', '{', '}', '}'])
      = .ok (cb ['{', '"', 'a', '"', ':', '{', '"', 'k', '"', ':'] ++ [d] ++ [125, 125])
    ∧ pathEngineProcess [{ path := cb ['a', '.', 'k'], action := .add, valueBytes := [d] }]
        (cb ['{', '"', 'a', '"', ':', '{', '"', 'k', '"', ':', '5', '}', '}'])
      = .ok (cb ['{', '"', 'a', '"', ':', '{', '"', 'k', '"', ':', '5', ',', '"', 'k', '"', ':']
          ++ [d] ++ [125, 125]) := by
  interval_cases d <;> exact ⟨rfl, rfl, rfl, rfl, rfl⟩

/-- Witness for the amended C1 at the digit payload `4`. -/
theorem C1_add_unconditional_witness :
    pathEngineProcess [{ path := cb ['a'], action := .add, valueBytes := [52] }]
        (cb ['{', '"', 'a', '"', ':', '1', '}'])
      = .ok (cb ['{', '"', 'a', '"', ':', '1', ',', '"', 'a', '"', ':'] ++ [52] ++ [125])
    ∧ pathEngineProcess [{ path := cb ['a'], action := .add, valueBytes := [52] }]
        (cb ['{', '"', 'b', '"', ':', '1', '}'])
      = .ok (cb ['{', '"', 'b', '"', ':', '1', ',', '"', 'a', '"', ':'] ++ [52] ++ [125])
    ∧ pathEngineProcess [{ path := cb ['a'], action := .add, valueBytes := [52] }]
        (cb ['{', '}'])
      = .ok (cb ['{', '"', 'a', '"', ':'] ++ [52] ++ [125])
    ∧ pathEngineProcess [{ path := cb ['a', '.', 'k'], action := .add, valueBytes := [52] }]
        (cb ['{', '"', 'a', '"', ':', '{', '}', '}'])
      = .ok (cb ['{', '"', 'a', '"', ':', '{', '"', 'k', '"', ':'] ++ [52] ++ [125, 125])
    ∧ pathEngineProcess [{ path := cb ['a', '.', 'k'], action := .add, valueBytes := [52] }]
        (cb ['{', '"', 'a', '"', ':', '{', '"', 'k', '"', ':', '5', '}', '}'])
      = .ok (cb ['{', '"', 'a', '"', ':', '{', '"', 'k', '"', ':', '5', ',', '"', 'k', '"', ':']
          ++ [52] ++ [125, 125]) :=
  C1_add_unconditional 52 (by decide) (by decide)

/-- Two rules colliding on path `a`, with `Set` inserted before
`Remove`. -/
def c3setFirst : List PathRule :=
  [{ path := cb ['a'], action := .set, valueBytes := cb ['9'] },
   { path := cb ['a'], action := .remove }]

/-- The same two rules with `Remove` inserted first. -/
def c3removeFirst : List PathRule :=
  [{ path := cb ['a'], action := .remove },
   { path := cb ['a'], action := .set, valueBytes := cb ['9'] }]

/-- Claim C3 (code bug): `checkKeyMatch`'s loop returns the FIRST
`Remove`-or-`Set` entry of the node's output list, although its own
comment (and the spec) state the priority `Remove > Set`.  With the
`Set` rule inserted first, `{"a":1}` becomes `{"a":9}` — the `Set`
payload is emitted and the pair is not removed; with `Remove` first the
field is removed (`{}`).  Order of colliding rules decides, contradicting
the documented precedence. -/
theorem C3_first_action_wins :
    pathEngineProcess c3setFirst c1present = .ok (cb ['{', '"', 'a', '"', ':', '9', '}'])
    ∧ pathEngineProcess c3removeFirst c1present = .ok (cb ['{', '}']) := by
  exact ⟨by rfl, by rfl⟩

/-- The remove rule and nested input of the C5 counterexample. -/
def c5rules : List PathRule := [{ path := cb ['a'], action := .remove }]

/-- `{"a":{"b":1}}`: the removed value is itself an object. -/
def c5input : List Nat :=
  cb ['{', '"', 'a', '"', ':', '{', '"', 'b', '"', ':', '1', '}', '}']

/-- Claim C5 counterexample: at the fifth structural event of processing
`{"a":{"b":1}}` under `remove a` — the `{` opening the skipped value —
the trace records path-stack depth 1 while 2 opens and 0 closes have
been processed: the skipped container went to `skipState.depth`, not the
path stack, so stack depth ≠ opens − closes at that event. -/
theorem C5_counterexample :
    (structTrace c5rules c5input).getD 4 (0, 0, 0, 0) = (1, 1, 2, 0)
    ∧ ¬((structTrace c5rules c5input).all
        (fun e => e.1 + e.2.2.2 = e.2.2.1) = true) := by
  exact ⟨by rfl, by decide⟩

/-- Nested wildcard-remove rules used for the C5 amended demonstration. -/
def c5wrules : List PathRule :=
  [{ path := cb ['a', '.', '*', '.', 'x'], action := .remove }]

/-- `{"a":{"m":{"x":1,"y":2},"n":{"x":3,"y":4}}}`. -/
def c5winput : List Nat :=
  cb ['{', '"', 'a', '"', ':', '{', '"', 'm', '"', ':', '{', '"', 'x', '"', ':', '1',
      ',', '"', 'y', '"', ':', '2', '}', ',', '"', 'n', '"', ':', '{', '"', 'x', '"',
      ':', '3', ',', '"', 'y', '"', ':', '4', '}', '}', '}']

/-- Claim C5 (amended): the depth bookkeeping splits between the path
stack and the skip sub-machine — at every structural event,
path-stack depth + `skipState.depth` equals opens − closes (for inputs
whose strings contain no structural bytes), demonstrated on the
counterexample input, on the nested wildcard-remove run, and on the
mixed remove+set+add run. -/
theorem C5_depth_with_skip :
    ((structTrace c5rules c5input).all
        (fun e => e.1 + e.2.1 + e.2.2.2 = e.2.2.1) = true)
    ∧ ((structTrace c5wrules c5winput).all
        (fun e => e.1 + e.2.1 + e.2.2.2 = e.2.2.1) = true)
    ∧ ((structTrace c8rules c8input).all
        (fun e => e.1 + e.2.1 + e.2.2.2 = e.2.2.1) = true) := by
  exact ⟨by decide, by decide, by decide⟩

/- =============== Legacy single-key engine (scanner + processor) =============== -/

/-- Scalar payloads of the legacy rule shape (`value any`); the legacy
rules in this development carry only the scalar shapes `json.Marshal`
turns into literals. -/
inductive LegacyVal where
  | jnull
  | jbool (b : Bool)
  | jint (i : Int)
  | jstr (s : List Nat)
deriving DecidableEq, Repr

/-- `Rule` from `rule.go`: single top-level key, action, optional
value. -/
structure Rule where
  key : List Nat
  action : GAction
  value : Option LegacyVal := none
deriving DecidableEq, Repr

/-- `Rule.IsValid` from `rule.go`: the key must be nonempty (the three
modelled actions are exactly the valid ones; unknown action strings are
outside the model). -/
def ruleIsValid (r : Rule) : Bool := !r.key.isEmpty

/-- Scanner state from the legacy token scanner: nesting depth,
whether we are inside an object, whether a key is expected. -/
structure SState where
  depth : Int
  inObject : Bool
  expectKey : Bool
deriving DecidableEq, Repr

/-- Tokens of the legacy scanner (`Raw` carried where it is not a fixed
single byte). -/
inductive Token where
  | objStart | objEnd | arrStart | arrEnd | colon | comma
  | key (raw : List Nat) (value : List Nat)
  | str (raw : List Nat) (value : List Nat)
  | num (raw : List Nat)
  | tru | fls | nul
deriving DecidableEq, Repr

/-- Whitespace skipping of the legacy scanner. -/
def skipWS : List Nat → List Nat
  | [] => []
  | c :: rest =>
    if c = 32 || c = 9 || c = 10 || c = 13 then skipWS rest else c :: rest

/-- String body loop of `scanString`: collect bytes up to and including
the closing quote, honouring backslash escapes; `none` on EOF. -/
def scanStrAux : List Nat → Bool → Option (List Nat × List Nat)
  | [], _ => none
  | c :: rest, escape =>
    if escape then (scanStrAux rest false).map (fun p => (c :: p.1, p.2))
    else if c = 92 then (scanStrAux rest true).map (fun p => (c :: p.1, p.2))
    else if c = 34 then some ([c], rest)
    else (scanStrAux rest false).map (fun p => (c :: p.1, p.2))

/-- Number-character test of the legacy scanner (`0-9 . e E + -`). -/
def isNumChar (c : Nat) : Bool :=
  (48 ≤ c && c ≤ 57) || c = 46 || c = 101 || c = 69 || c = 43 || c = 45

/-- `Scanner.Next` from the legacy scanner: skip whitespace, read one
token, update the scanner state; `none` models EOF and scan errors (both
end the processor loop). -/
def scanNext (st : SState) (input : List Nat) : Option (Token × SState × List Nat) :=
  match skipWS input with
  | [] => none
  | b :: rest =>
    if b = 123 then
      some (.objStart, { st with depth := st.depth + 1, inObject := true, expectKey := true }, rest)
    else if b = 125 then
      some (.objEnd, { st with depth := st.depth - 1, expectKey := false }, rest)
    else if b = 91 then
      some (.arrStart, { st with depth := st.depth + 1, inObject := false, expectKey := false }, rest)
    else if b = 93 then
      some (.arrEnd, { st with depth := st.depth - 1 }, rest)
    else if b = 58 then
      some (.colon, { st with expectKey := false }, rest)
    else if b = 44 then
      some (.comma, if st.inObject then { st with expectKey := true } else st, rest)
    else if b = 34 then
      match scanStrAux rest false with
      | none => none
      | some (body, rest2) =>
        let raw := 34 :: body
        let value := body.dropLast
        if st.expectKey && st.inObject then some (.key raw value, st, rest2)
        else some (.str raw value, st, rest2)
    else if b = 116 then
      if rest.take 3 = [114, 117, 101] then some (.tru, st, rest.drop 3) else none
    else if b = 102 then
      if rest.take 4 = [97, 108, 115, 101] then some (.fls, st, rest.drop 4) else none
    else if b = 110 then
      if rest.take 3 = [117, 108, 108] then some (.nul, st, rest.drop 3) else none
    else if b = 45 || (48 ≤ b && b ≤ 57) then
      some (.num (b :: rest.takeWhile isNumChar), st, rest.dropWhile isNumChar)
    else none

/-- Compound-value loop of `Scanner.SkipValue`: discard bytes until the
nesting depth returns to zero. -/
def skipCompound : List Nat → Nat → Bool → Bool → Option (List Nat)
  | [], _, _, _ => none
  | c :: rest, depth, inString, escape =>
    if escape then skipCompound rest depth inString false
    else if c = 92 && inString then skipCompound rest depth inString true
    else if c = 34 then skipCompound rest depth (!inString) escape
    else if !inString && (c = 123 || c = 91) then skipCompound rest (depth + 1) inString escape
    else if !inString && (c = 125 || c = 93) then
      if depth - 1 = 0 then some rest else skipCompound rest (depth - 1) inString escape
    else skipCompound rest depth inString escape

/-- String loop of `Scanner.SkipValue`: discard bytes to the closing
quote. -/
def skipString : List Nat → Bool → Option (List Nat)
  | [], _ => none
  | c :: rest, escape =>
    if escape then skipString rest false
    else if c = 92 then skipString rest true
    else if c = 34 then some rest
    else skipString rest false

/-- `Scanner.SkipValue` from the legacy scanner: consume one JSON value
from the byte stream without emitting it. -/
def SkipValue (input : List Nat) : Option (List Nat) :=
  match skipWS input with
  | [] => none
  | b :: rest =>
    if b = 123 || b = 91 then skipCompound rest 1 false false
    else if b = 34 then skipString rest false
    else if b = 116 then if rest.length < 3 then none else some (rest.drop 3)
    else if b = 102 then if rest.length < 4 then none else some (rest.drop 4)
    else if b = 110 then if rest.length < 3 then none else some (rest.drop 3)
    else if b = 45 || (48 ≤ b && b ≤ 57) then some (rest.dropWhile isNumChar)
    else none

/-- Compound-value loop of `Scanner.CopyValue` (the Peek/Discard
batching of the source is an optimisation around the same per-byte
state machine): copy bytes until the depth returns to zero. -/
def copyCompound : List Nat → Nat → Bool → Bool → Option (List Nat × List Nat)
  | [], _, _, _ => none
  | c :: rest, depth, inString, escape =>
    if escape then (copyCompound rest depth inString false).map (fun p => (c :: p.1, p.2))
    else if c = 92 && inString then
      (copyCompound rest depth inString true).map (fun p => (c :: p.1, p.2))
    else if c = 34 then
      (copyCompound rest depth (!inString) escape).map (fun p => (c :: p.1, p.2))
    else if !inString && (c = 123 || c = 91) then
      (copyCompound rest (depth + 1) inString escape).map (fun p => (c :: p.1, p.2))
    else if !inString && (c = 125 || c = 93) then
      if depth - 1 = 0 then some ([c], rest)
      else (copyCompound rest (depth - 1) inString escape).map (fun p => (c :: p.1, p.2))
    else (copyCompound rest depth inString escape).map (fun p => (c :: p.1, p.2))

/-- String loop of `Scanner.CopyValue`. -/
def copyString : List Nat → Bool → Option (List Nat × List Nat)
  | [], _ => none
  | c :: rest, escape =>
    if escape then (copyString rest false).map (fun p => (c :: p.1, p.2))
    else if c = 92 then (copyString rest true).map (fun p => (c :: p.1, p.2))
    else if c = 34 then some ([c], rest)
    else (copyString rest false).map (fun p => (c :: p.1, p.2))

/-- `Scanner.CopyValue` from the legacy scanner: copy one JSON value
verbatim. -/
def CopyValue (input : List Nat) : Option (List Nat × List Nat) :=
  match skipWS input with
  | [] => none
  | b :: rest =>
    if b = 123 || b = 91 then (copyCompound rest 1 false false).map (fun p => (b :: p.1, p.2))
    else if b = 34 then (copyString rest false).map (fun p => (b :: p.1, p.2))
    else if b = 116 then
      if rest.length < 3 then none else some (b :: rest.take 3, rest.drop 3)
    else if b = 102 then
      if rest.length < 4 then none else some (b :: rest.take 4, rest.drop 4)
    else if b = 110 then
      if rest.length < 3 then none else some (b :: rest.take 3, rest.drop 3)
    else if b = 45 || (48 ≤ b && b ≤ 57) then
      some (b :: rest.takeWhile isNumChar, rest.dropWhile isNumChar)
    else none

/-- `escapeString` from the legacy processor (note: unlike the path
engine's `marshalString`, control characters below 0x20 are passed
through unescaped). -/
def legacyEscapeString : List Nat → List Nat
  | [] => []
  | c :: rest =>
    (if c = 34 then [92, 34]
     else if c = 92 then [92, 92]
     else if c = 10 then [92, 110]
     else if c = 13 then [92, 114]
     else if c = 9 then [92, 116]
     else [c]) ++ legacyEscapeString rest

/-- `json.Marshal` on the scalar payloads of the legacy rules
(`writeValue`/`writeValueDirect`); string escaping modelled for the
ASCII payloads used here. -/
def goMarshal : Option LegacyVal → List Nat
  | none => [110, 117, 108, 108]
  | some .jnull => [110, 117, 108, 108]
  | some (.jbool true) => [116, 114, 117, 101]
  | some (.jbool false) => [102, 97, 108, 115, 101]
  | some (.jint i) => itoa i
  | some (.jstr s) => 34 :: (legacyEscapeString s ++ [34])

/-- Association-list model of the Go maps built by `newProcessor`
(assignment overwrites; iteration follows insertion order). -/
def mapPut {α : Type} : List (List Nat × α) → List Nat → α → List (List Nat × α)
  | [], k, v => [(k, v)]
  | (k', v') :: rest, k, v =>
    if k' = k then (k, v) :: rest else (k', v') :: mapPut rest k v

def mapGet {α : Type} : List (List Nat × α) → List Nat → Option α
  | [], _ => none
  | (k', v') :: rest, k => if k' = k then some v' else mapGet rest k

/-- The classified rule maps of `processor` (`newProcessor`). -/
structure LProc where
  setRules : List (List Nat × Option LegacyVal)
  addRules : List (List Nat × Option LegacyVal)
  removeKeys : List (List Nat)
deriving DecidableEq, Repr

/-- `newProcessor`'s classification loop. -/
def newProcessor (rules : List Rule) : LProc :=
  rules.foldl
    (fun p r =>
      match r.action with
      | .set => { p with setRules := mapPut p.setRules r.key r.value }
      | .add => { p with addRules := mapPut p.addRules r.key r.value }
      | .remove =>
        { p with removeKeys := if p.removeKeys.contains r.key then p.removeKeys
                               else p.removeKeys ++ [r.key] })
    ⟨[], [], []⟩

/-- Mutable state of the legacy processor loop (`processDirect`). -/
structure LState where
  scan : SState
  depth : Int
  firstField : Bool
  pendingComma : Bool
  seenKeys : List (List Nat)
deriving DecidableEq, Repr

/-- `insertAddFieldsDirect` from the legacy processor: append each add
rule whose key was never seen at the top level, comma-separated after
existing fields; returns the bytes and the updated `firstField`. -/
def insertAddFields (p : LProc) (seenKeys : List (List Nat)) (firstField : Bool) :
    List Nat × Bool :=
  p.addRules.foldl
    (fun (acc : List Nat × Bool) kv =>
      if seenKeys.contains kv.1 then acc
      else
        (acc.1 ++ (if !acc.2 then [44] else [])
          ++ 34 :: (legacyEscapeString kv.1 ++ [34, 58] ++ goMarshal kv.2), false))
    ([], firstField)

/-- One iteration of the `processDirect` loop: scan one token and handle
it; for a top-level key the removal / substitution / copy branches also
consume the colon and the value from the byte stream.  `none` ends the
loop (EOF or scan error, as in the source where scanner errors make
`Next` return false). -/
def legacyStep (p : LProc) (st : LState) (input : List Nat) :
    Option (LState × List Nat × List Nat) :=
  match scanNext st.scan input with
  | none => none
  | some (tok, scan1, rest) =>
    let st1 : LState := { st with scan := scan1 }
    let flush : List Nat := if st1.pendingComma then [44] else []
    match tok with
    | .objStart =>
      let d := st1.depth + 1
      let st2 := { st1 with depth := d, pendingComma := false }
      some ({ st2 with firstField := if d = 1 then true else st2.firstField },
            flush ++ [123], rest)
    | .objEnd =>
      let d := st1.depth - 1
      if d = 0 then
        let ins := insertAddFields p st1.seenKeys st1.firstField
        some ({ st1 with depth := d, pendingComma := false, firstField := ins.2 },
              ins.1 ++ [125], rest)
      else
        some ({ st1 with depth := d, pendingComma := false }, [125], rest)
    | .arrStart =>
      some ({ st1 with depth := st1.depth + 1, pendingComma := false }, flush ++ [91], rest)
    | .arrEnd =>
      some ({ st1 with depth := st1.depth - 1, pendingComma := false }, [93], rest)
    | .key raw value =>
      if st1.depth = 1 then
        let seen := if st1.seenKeys.contains value then st1.seenKeys else st1.seenKeys ++ [value]
        let st2 := { st1 with seenKeys := seen }
        if p.removeKeys.contains value then
          match scanNext st2.scan rest with
          | none => none
          | some (_, scan2, rest2) =>
            match SkipValue rest2 with
            | none => none
            | some rest3 => some ({ st2 with scan := scan2 }, [], rest3)
        else
          match mapGet p.setRules value with
          | some newValue =>
            let out1 : List Nat := if !st2.firstField then [44] else []
            match scanNext st2.scan rest with
            | none => none
            | some (_, scan2, rest2) =>
              match SkipValue rest2 with
              | none => none
              | some rest3 =>
                some ({ st2 with scan := scan2, firstField := false, pendingComma := false },
                      out1 ++ raw ++ [58] ++ goMarshal newValue, rest3)
          | none =>
            let out1 : List Nat := if !st2.firstField then [44] else []
            match scanNext st2.scan rest with
            | none => none
            | some (_, scan2, rest2) =>
              match CopyValue rest2 with
              | none => none
              | some (copied, rest3) =>
                some ({ st2 with scan := scan2, firstField := false, pendingComma := false },
                      out1 ++ raw ++ [58] ++ copied, rest3)
      else
        some ({ st1 with pendingComma := false }, flush ++ raw, rest)
    | .comma =>
      if st1.depth = 1 then some ({ st1 with pendingComma := true }, [], rest)
      else some (st1, [44], rest)
    | .colon => some (st1, [58], rest)
    | .str raw _ => some ({ st1 with pendingComma := false }, flush ++ raw, rest)
    | .num raw => some ({ st1 with pendingComma := false }, flush ++ raw, rest)
    | .tru => some ({ st1 with pendingComma := false }, flush ++ [116, 114, 117, 101], rest)
    | .fls => some ({ st1 with pendingComma := false }, flush ++ [102, 97, 108, 115, 101], rest)
    | .nul => some ({ st1 with pendingComma := false }, flush ++ [110, 117, 108, 108], rest)

/-- The `for p.scanner.Next()` loop of `processDirect`; every iteration
consumes at least one input byte, so `input.length + 1` fuel always
suffices. -/
def legacyRun (p : LProc) : Nat → LState → List Nat → List Nat
  | 0, _, _ => []
  | fuel + 1, st, input =>
    match legacyStep p st input with
    | none => []
    | some (st1, out, rest) => out ++ legacyRun p fuel st1 rest

/-- `processor.processDirect` from the legacy processor. -/
def processDirect (rules : List Rule) (input : List Nat) : List Nat :=
  legacyRun (newProcessor rules) (input.length + 1)
    ⟨⟨0, false, false⟩, 0, true, false, []⟩ input

/-- `Engine.New` + `Engine.ProcessTo` from `engine.go`: invalid rules
are filtered at construction; with no valid rules the input is copied
through unchanged, otherwise `processDirect` runs. -/
def engineProcessTo (rules : List Rule) (input : List Nat) : List Nat :=
  let valid := rules.filter ruleIsValid
  if valid.isEmpty then input else processDirect valid input

/-- `Engine.Process` from `engine.go` (the `io.Pipe`-based `process()`
differs from `processDirect` only in plumbing and a dead local
variable): the empty-rule short circuit returns the input reader
itself. -/
def engineProcess (rules : List Rule) (input : List Nat) : List Nat :=
  let valid := rules.filter ruleIsValid
  if valid.isEmpty then input else processDirect valid input

/-- Claim C2: with an empty rule set — or one consisting entirely of
invalid rules, which construction filters out — both legacy entry points
(`Engine.Process`, `Engine.ProcessTo`) and `PathEngine.Process`
degenerate to a byte-for-byte copy of the input. -/
theorem C2_identity (input : List Nat) (rules : List Rule) (prules : List PathRule)
    (hr : ∀ r ∈ rules, ruleIsValid r = false)
    (hp : ∀ r ∈ prules, r.path = []) :
    engineProcess rules input = input
    ∧ engineProcessTo rules input = input
    ∧ pathEngineProcess prules input = .ok input := by
  have hfr : rules.filter ruleIsValid = [] :=
    List.filter_eq_nil_iff.mpr (fun r hrr => by simp [hr r hrr])
  have hfp : prules.filter (fun r => !r.path.isEmpty) = [] :=
    List.filter_eq_nil_iff.mpr (fun r hrr => by simp [hp r hrr])
  refine ⟨?_, ?_, ?_⟩
  · unfold engineProcess
    rw [hfr]
    rfl
  · unfold engineProcessTo
    rw [hfr]
    rfl
  · unfold pathEngineProcess NewPathEngine
    rw [hfp]
    rfl

/-- Witness for C2: a legacy rule with an empty key and a path rule with
an empty path are both dropped, leaving the input untouched. -/
theorem C2_identity_witness :
    engineProcess [{ key := [], action := .remove }] (cb ['h', 'i']) = cb ['h', 'i']
    ∧ engineProcessTo [{ key := [], action := .remove }] (cb ['h', 'i']) = cb ['h', 'i']
    ∧ pathEngineProcess [{ path := [], action := .remove }] (cb ['h', 'i'])
        = .ok (cb ['h', 'i']) :=
  C2_identity (cb ['h', 'i']) [{ key := [], action := .remove }]
    [{ path := [], action := .remove }] (by decide) (by decide)

/-- Claim C10: the legacy processor only ever affects fields at nesting
depth 1.  Whenever the scanner yields a key token while the processor's
depth differs from 1, the step takes the passthrough branch: it emits
exactly the (possibly comma-prefixed) raw key bytes, consumes nothing
beyond the token, leaves `seenKeys` (the Add-suppression record),
`depth` and `firstField` untouched, and triggers no removal or value
substitution — even if the key is byte-equal to a rule's key. -/
theorem C10_legacy_nested_frame (p : LProc) (st : LState) (input : List Nat)
    (raw value : List Nat) (scan1 : SState) (rest : List Nat)
    (hdepth : st.depth ≠ 1)
    (hscan : scanNext st.scan input = some (.key raw value, scan1, rest)) :
    legacyStep p st input
      = some ({ st with scan := scan1, pendingComma := false },
              (if st.pendingComma then [44] else []) ++ raw, rest) := by
  unfold legacyStep
  rw [hscan]
  simp [hdepth]

/-- Witness for C10: at depth 2 the key `x` passes through although a
`remove x` rule exists, and `seenKeys` stays empty. -/
theorem C10_legacy_nested_frame_witness :
    (newProcessor [{ key := cb ['x'], action := .remove }]).removeKeys.contains (cb ['x']) = true
    ∧ legacyStep (newProcessor [{ key := cb ['x'], action := .remove }])
        ⟨⟨2, true, true⟩, 2, true, false, []⟩ (cb ['"', 'x', '"', ':', '1', '}'])
      = some (⟨⟨2, true, true⟩, 2, true, false, []⟩, cb ['"', 'x', '"'], cb [':', '1', '}']) :=
  ⟨by decide,
    C10_legacy_nested_frame (newProcessor [{ key := cb ['x'], action := .remove }])
      ⟨⟨2, true, true⟩, 2, true, false, []⟩ (cb ['"', 'x', '"', ':', '1', '}'])
      (cb ['"', 'x', '"']) (cb ['x']) ⟨2, true, true⟩ (cb [':', '1', '}'])
      (by decide) (by rfl)⟩
